import Mathlib

/-
Verification development for the design-tokens-sync token pipeline
(src/core/TokenProcessor.js, src/core/TransformEngine.js,
src/core/TokenValidator.js).

The JavaScript value universe is shallowly embedded as a mutual inductive
JSON type.  JavaScript numbers are represented exactly as unnormalized
integer fractions (JNum); the token trees exercised here only ever carry
finite decimal values, so IEEE-754 rounding is not observable in any of
the statements below (a comment marks each spot where float corner cases
could alter a validator warning).  Object property access is own-property
access on parsed JSON data, property order is insertion order, and a
JavaScript exception (strict-mode TypeError, or exhaustion of the
recursion budget of the unguarded reference resolver) is modelled by
Option.none / Except.error.
-/

/-- JavaScript number, kept as an exact (not necessarily reduced) fraction
num/den.  den = 0 encodes the nonfinite values that division by zero would
produce; no claim below evaluates such a value. -/
structure JNum where
  num : Int
  den : Int
  deriving DecidableEq

mutual

/-- JSON/JavaScript data value (functions and object identity are not
modelled; all trees handled by the pipeline are parsed JSON data). -/
inductive Json where
  | null : Json
  | bool : Bool → Json
  | num : JNum → Json
  | str : String → Json
  | arr : JsonList → Json
  | obj : JsonObj → Json
  deriving DecidableEq

/-- Array elements, in order. -/
inductive JsonList where
  | nil : JsonList
  | cons : Json → JsonList → JsonList
  deriving DecidableEq

/-- Object entries, in insertion order. -/
inductive JsonObj where
  | nil : JsonObj
  | cons : String → Json → JsonObj → JsonObj
  deriving DecidableEq

end

/-- Build an object entry list from a Lean list. -/
def jO : List (String × Json) → JsonObj
  | [] => .nil
  | (k, v) :: rest => .cons k v (jO rest)

/-- Build a Json object from a Lean list of entries. -/
def jsonOfO (l : List (String × Json)) : Json :=
  Json.obj (jO l)

/-- Build a Json array from a Lean list. -/
def jA : List Json → JsonList
  | [] => .nil
  | v :: rest => .cons v (jA rest)

/-- Entries of an object as a Lean list. -/
def toListO : JsonObj → List (String × Json)
  | .nil => []
  | .cons k v rest => (k, v) :: toListO rest

/-- Elements of an array as a Lean list. -/
def toListL : JsonList → List Json
  | .nil => []
  | .cons v rest => v :: toListL rest

/-- Own-property lookup on an object (first entry with the key wins). -/
def lookupO : JsonObj → String → Option Json
  | .nil, _ => none
  | .cons k v rest, key => if k = key then some v else lookupO rest key

/-- JavaScript property write on an object: update in place if the key
exists (keeping its position), otherwise append. -/
def setO : JsonObj → String → Json → JsonObj
  | .nil, k, v => .cons k v .nil
  | .cons k0 v0 rest, k, v =>
      if k0 = k then .cons k0 v rest else .cons k0 v0 (setO rest k v)

/-- Object.assign semantics: write every entry of the source into the
target, in source order. -/
def assignO (target : JsonObj) (source : JsonObj) : JsonObj :=
  (toListO source).foldl (fun acc p => setO acc p.1 p.2) target

/-- Number of array elements. -/
def lenL : JsonList → Nat
  | .nil => 0
  | .cons _ rest => 1 + lenL rest

/-- Array element at an index. -/
def getIdx : JsonList → Nat → Option Json
  | .nil, _ => none
  | .cons v _, 0 => some v
  | .cons _ rest, n + 1 => getIdx rest n

/-- JavaScript truthiness. -/
def truthy : Json → Bool
  | .null => false
  | .bool b => b
  | .num q => !(q.num = 0)
  | .str s => !(s = "")
  | .arr _ => true
  | .obj _ => true

/-- The test (typeof x === "object"); true for null, arrays and objects. -/
def typeofObject : Json → Bool
  | .null => true
  | .arr _ => true
  | .obj _ => true
  | _ => false

/-- Array.isArray. -/
def isArrB : Json → Bool
  | .arr _ => true
  | _ => false

/-- Whether x is a string (typeof x === "string"). -/
def isStrB : Json → Bool
  | .str _ => true
  | _ => false

/-- Canonical array-index reading of a property key, as JavaScript uses for
array element access ("0", "17", but not "01"). -/
def canonIdx (s : String) : Option Nat :=
  if s = "0" then some 0
  else if s.data.headD ' ' = '0' then none
  else if s.data ≠ [] && s.data.all Char.isDigit then
    some (s.data.foldl (fun a c => a * 10 + (c.toNat - 48)) 0)
  else none

/-- Own-property read x[k] for a non-null base.  Objects use their entry
list; arrays expose canonical indices and "length"; strings expose
character indices and "length"; numbers and booleans have no own
properties (inherited prototype members are not modelled).  A null base
throws in JavaScript; callers that can reach a null base use memJs. -/
def getProp : Json → String → Option Json
  | .obj es, k => lookupO es k
  | .arr xs, k =>
      if k = "length" then some (.num ⟨lenL xs, 1⟩)
      else match canonIdx k with
        | some i => getIdx xs i
        | none => none
  | .str s, k =>
      if k = "length" then some (.num ⟨s.data.length, 1⟩)
      else match canonIdx k with
        | some i => (s.data.get? i).map (fun c => .str (String.mk [c]))
        | none => none
  | _, _ => none

/-- Property read x[k] with the JavaScript TypeError on a null base made
explicit: none is the thrown exception, some none is undefined. -/
def memJs (j : Json) (k : String) : Option (Option Json) :=
  match j with
  | .null => none
  | _ => some (getProp j k)

/-- Optional chaining a?.[k] over a possibly-undefined base: a nullish
base yields undefined instead of throwing. -/
def optChain (o : Option Json) (k : String) : Option Json :=
  match o with
  | none => none
  | some .null => none
  | some j => getProp j k

/-- Truthiness of a possibly-undefined value (undefined is falsy). -/
def truthyO (o : Option Json) : Bool :=
  match o with
  | none => false
  | some v => truthy v

/-- The expression (x || d): x when truthy, otherwise d. -/
def orJs (o : Option Json) (d : Json) : Json :=
  match o with
  | some v => if truthy v then v else d
  | none => d

/-- Object.entries: object entries in order; arrays and strings enumerate
index keys; other primitives have no entries.  Object.entries(null)
throws; the callers that can pass null handle that case themselves. -/
def entriesJson : Json → List (String × Json)
  | .obj es => toListO es
  | .arr xs => (toListL xs).enum.map (fun p => (toString p.1, p.2))
  | .str s => s.data.enum.map (fun p => (toString p.1, Json.str (String.mk [p.2])))
  | _ => []

/-- Object.keys, same enumeration as entriesJson. -/
def keysJson (j : Json) : List String :=
  (entriesJson j).map Prod.fst

/-- Object.values, same enumeration as entriesJson. -/
def valuesJson (j : Json) : List Json :=
  (entriesJson j).map Prod.snd

/-- Strict equality (===) on the values the pipeline compares.  Two
distinct object or array literals are never strictly equal in JavaScript
(reference equality); parsed JSON trees contain no aliasing, so objects
and arrays compare false here. -/
def jsStrictEq : Json → Json → Bool
  | .null, .null => true
  | .bool a, .bool b => a = b
  | .num a, .num b => a.num * b.den = b.num * a.den && !(a.den = 0) && !(b.den = 0)
  | .str a, .str b => a = b
  | _, _ => false

/-- Strict-mode property assignment x[k] = v: objects update or append;
arrays update an existing index or append at the end; assignment on a
primitive or null base throws (none).  Out-of-range or non-index array
keys are not reached by this development and also map to none. -/
def jsSetJ : Json → String → Json → Option Json
  | .obj es, k, v => some (.obj (setO es k v))
  | .arr xs, k, v =>
      (match canonIdx k with
       | some i =>
           if i < lenL xs then some (.arr (setIdx xs i v))
           else if i = lenL xs then some (.arr (appendL xs v))
           else none
       | none => none)
  | _, _, _ => none
where
  setIdx : JsonList → Nat → Json → JsonList
    | .nil, _, _ => .nil
    | .cons _ rest, 0, v => .cons v rest
    | .cons x rest, n + 1, v => .cons x (setIdx rest n v)
  appendL : JsonList → Json → JsonList
    | .nil, v => .cons v .nil
    | .cons x rest, v => .cons x (appendL rest v)

/-- Characters counted as whitespace by the \s class and by trim. -/
def isWsChar (c : Char) : Bool :=
  c = ' ' || c = '\t' || c = '\n' || c = '\r' || c = '\x0b' || c = '\x0c'

/-- s.startsWith(p). -/
def strStarts (s p : String) : Bool :=
  p.data.isPrefixOf s.data

/-- s.endsWith(p). -/
def strEnds (s p : String) : Bool :=
  p.data.reverse.isPrefixOf s.data.reverse

/-- s.slice(1, -1). -/
def sliceInner (s : String) : String :=
  String.mk ((s.data.drop 1).dropLast)

/-- s.split("."), which always yields at least one piece. -/
def splitDot (s : String) : List String :=
  go s.data []
where
  go : List Char → List Char → List String
    | [], acc => [String.mk acc.reverse]
    | c :: rest, acc =>
        if c = '.' then String.mk acc.reverse :: go rest []
        else go rest (c :: acc)

/-- Substring containment, as s.includes(p). -/
def hasSub (s p : String) : Bool :=
  go s.data
where
  go : List Char → Bool
    | [] => p.data.isPrefixOf []
    | c :: rest => p.data.isPrefixOf (c :: rest) || go rest

/-- String.prototype.trim. -/
def trimJs (s : String) : String :=
  String.mk ((s.data.dropWhile isWsChar).reverse.dropWhile isWsChar |>.reverse)

/-- ASCII lower-case check, the class [a-z]. -/
def isLowerAscii (c : Char) : Bool :=
  'a' ≤ c && c ≤ 'z'

/-- ASCII upper-case check, the class [A-Z]. -/
def isUpperAscii (c : Char) : Bool :=
  'A' ≤ c && c ≤ 'Z'

/-- ASCII letter check, the class [a-z] with the i flag. -/
def isLetterAscii (c : Char) : Bool :=
  isLowerAscii c || isUpperAscii c

/-- Hex digit check for the class [A-Fa-f0-9]. -/
def isHexChar (c : Char) : Bool :=
  c.isDigit || ('a' ≤ c && c ≤ 'f') || ('A' ≤ c && c ≤ 'F')

/-- ASCII toLowerCase. -/
def lowerStr (s : String) : String :=
  String.mk (s.data.map (fun c => if isUpperAscii c then Char.ofNat (c.toNat + 32) else c))

/-- The global replace of /([a-z])([A-Z])/ with "$1-$2": each match
consumes both characters, so matches never overlap. -/
def kebabIns (s : String) : String :=
  String.mk (go s.data)
where
  go : List Char → List Char
    | a :: b :: rest =>
        if isLowerAscii a && isUpperAscii b then a :: '-' :: b :: go rest
        else a :: go (b :: rest)
    | xs => xs

/-- Decimal digits of the fractional part rem/d, with a recursion budget;
stops when the remainder is zero.  The values printed by this development
all have terminating decimal expansions, matching what JavaScript prints
for them; repeating expansions (not reachable below) would be truncated
here where JavaScript prints a shortest-roundtrip double. -/
def fracDigits : Nat → Nat → Nat → String
  | _, _, 0 => ""
  | rem, d, f + 1 =>
      if rem = 0 then ""
      else toString (rem * 10 / d) ++ fracDigits (rem * 10 % d) d f

/-- Template-literal rendering of a JavaScript number. -/
def numToString (q : JNum) : String :=
  if q.den = 0 then
    (if q.num > 0 then "Infinity" else if q.num < 0 then "-Infinity" else "NaN")
  else
    let sn : Int := if q.den < 0 then -q.num else q.num
    let n0 : Nat := sn.natAbs
    let d0 : Nat := q.den.natAbs
    let g : Nat := Nat.gcd n0 d0
    let n : Nat := n0 / g
    let d : Nat := d0 / g
    let frac : String := fracDigits (n % d) d 40
    (if sn < 0 && !(n = 0) then "-" else "") ++ toString (n / d) ++
      (if frac = "" then "" else "." ++ frac)

/-- Parse a run of decimal digits: value, digit count, rest. -/
def parseDigits : List Char → Nat × Nat × List Char
  | [] => (0, 0, [])
  | c :: rest =>
      if c.isDigit then
        let r := parseDigits rest
        ((c.toNat - 48) * 10 ^ r.2.1 + r.1, r.2.1 + 1, r.2.2)
      else (0, 0, c :: rest)

/-- parseFloat: skip leading whitespace, optional sign, decimal mantissa,
optional exponent; none models NaN (no digit in the mantissa). -/
def jsParseFloat (s : String) : Option JNum :=
  let cs := s.data.dropWhile isWsChar
  let (neg, cs1) :=
    match cs with
    | '-' :: rest => (true, rest)
    | '+' :: rest => (false, rest)
    | rest => (false, rest)
  let (ip, ic, cs2) := parseDigits cs1
  let (fp, fc, cs3) :=
    match cs2 with
    | '.' :: rest => parseDigits rest
    | rest => (0, 0, rest)
  if ic = 0 && fc = 0 then none
  else
    let mant : Nat := ip * 10 ^ fc + fp
    let den : Nat := 10 ^ fc
    let (emag, esign) :=
      match cs3 with
      | 'e' :: rest => expPart rest
      | 'E' :: rest => expPart rest
      | _ => (0, false)
    let n : Int := if neg then -(mant : Int) else (mant : Int)
    if esign then some ⟨n, (den * 10 ^ emag : Nat)⟩
    else some ⟨n * 10 ^ emag, (den : Nat)⟩
where
  expPart (cs : List Char) : Nat × Bool :=
    let (es, cs0) :=
      match cs with
      | '-' :: rest => (true, rest)
      | '+' :: rest => (false, rest)
      | rest => (false, rest)
    let (ev, ec, _) := parseDigits cs0
    if ec = 0 then (0, false) else (ev, es)

mutual

/-- Template-literal stringification of a value. -/
def jsToString : Json → String
  | .null => "null"
  | .bool b => if b then "true" else "false"
  | .num q => numToString q
  | .str s => s
  | .arr xs => jsToStringL xs
  | .obj _ => "[object Object]"

/-- Array join(",") with null elements rendered empty. -/
def jsToStringL : JsonList → String
  | .nil => ""
  | .cons v .nil => jsToStringElem v
  | .cons v rest => jsToStringElem v ++ "," ++ jsToStringL rest

/-- One array element inside a join: null prints as the empty string. -/
def jsToStringElem : Json → String
  | .null => ""
  | v => jsToString v

end

/-- Stringification of a possibly-undefined value in a template literal. -/
def jsToStringU (o : Option Json) : String :=
  match o with
  | none => "undefined"
  | some v => jsToString v

/-- The segment walk inside resolveTokenReference: at each part, descend
only when the current node is a truthy object with that own property
defined; otherwise the reference is undefined. -/
def walkPath : Json → List String → Option Json
  | cur, [] => some cur
  | cur, p :: ps =>
      if truthy cur && typeofObject cur then
        match getProp cur p with
        | some nxt => walkPath nxt ps
        | none => none
      else none

mutual

/-- TokenProcessor.resolveTokenValue.  The source recursion has no cycle
guard, so the embedding carries an explicit recursion budget: none means
the budget ran out, that is, the JavaScript call recursed at least that
deep (on a cyclic tree it does so for every budget). -/
def resolveTokenValue : Nat → Json → Json → Option Json
  | 0, _, _ => none
  | fuel + 1, v, raw =>
      match v with
      | .str s =>
          if strStarts s "\x7b" && strEnds s "\x7d" then
            match resolveTokenReference fuel (sliceInner s) raw with
            | none => none
            | some none => some (.str s)
            | some (some r) => some r
          else some (.str s)
      | x => some x

/-- TokenProcessor.resolveTokenReference: some none is the undefined
result, none is budget exhaustion in the recursive value resolution. -/
def resolveTokenReference : Nat → String → Json → Option (Option Json)
  | 0, _, _ => none
  | fuel + 1, path, raw =>
      if !(truthy raw) then some none
      else
        match walkPath raw (splitDot path) with
        | none => some none
        | some cur =>
            if truthy cur && typeofObject cur then
              match getProp cur "value" with
              | some v => (resolveTokenValue fuel v raw).map some
              | none => some (some cur)
            else some (some cur)

end

mutual

/-- The resolveObject closure of resolveAllTokenReferences: strings go
through resolveTokenValue, arrays map, and objects map with the special
case for string-valued "value" entries.  The deep clone taken by the
source is the identity on parsed JSON data. -/
def resolveObject (fuel : Nat) (raw : Json) : Json → Option Json
  | .str s => resolveTokenValue fuel (.str s) raw
  | .arr xs => (resolveObjectL fuel raw xs).map Json.arr
  | .obj es => (resolveObjectO fuel raw es).map Json.obj
  | x => some x

/-- resolveObject over array elements. -/
def resolveObjectL (fuel : Nat) (raw : Json) : JsonList → Option JsonList
  | .nil => some .nil
  | .cons v rest => do
      let v2 ← resolveObject fuel raw v
      let r2 ← resolveObjectL fuel raw rest
      pure (.cons v2 r2)

/-- resolveObject over object entries: a "value" entry holding a string is
resolved as a token value, every other entry is recursed into. -/
def resolveObjectO (fuel : Nat) (raw : Json) : JsonObj → Option JsonObj
  | .nil => some .nil
  | .cons k v rest => do
      let v2 ←
        if k = "value" && isStrB v then resolveTokenValue fuel v raw
        else resolveObject fuel raw v
      let r2 ← resolveObjectO fuel raw rest
      pure (.cons k v2 r2)

end

/-- TokenProcessor.resolveAllTokenReferences: clone the tree (identity on
parsed JSON) and resolve every node against the original tree. -/
def resolveAllTokenReferences (fuel : Nat) (raw : Json) : Option Json :=
  resolveObject fuel raw raw

/-- TokenProcessor.preserveNestedStructure: two fixed levels
(category, shade); non-object categories are skipped, token-format leaves
resolve their value field, direct leaves resolve themselves.  A null
argument throws in Object.entries. -/
def preserveNestedStructure (fuel : Nat) (raw : Json) : Json → Option JsonObj
  | .null => none
  | o =>
      (entriesJson o).foldlM
        (fun acc p =>
          let category := p.1
          let shades := p.2
          if truthy shades && typeofObject shades && !(isArrB shades) then do
            let inner ← (entriesJson shades).foldlM
              (fun acc2 q =>
                let shade := q.1
                let value := q.2
                if truthy value && typeofObject value && (getProp value "value").isSome then do
                  let r ← resolveTokenValue fuel ((getProp value "value").getD .null) raw
                  pure (setO acc2 shade r)
                else do
                  let r ← resolveTokenValue fuel value raw
                  pure (setO acc2 shade r))
              JsonObj.nil
            pure (setO acc category (Json.obj inner))
          else pure acc)
        JsonObj.nil

/-- The string case of flattenTokenCategory: Object.entries of a string
enumerates its characters, which are plain one-character strings and land
in the direct-value branch. -/
def flatChars (fuel : Nat) (raw : Json) : List Char → Nat → String → JsonObj → Option JsonObj
  | [], _, _, acc => some acc
  | c :: rest, i, pre, acc => do
      let newKey := if !(pre = "") then pre ++ "-" ++ toString i else toString i
      let r ← resolveTokenValue fuel (.str (String.mk [c])) raw
      flatChars fuel raw rest (i + 1) pre (setO acc newKey r)

mutual

/-- TokenProcessor.flattenTokenCategory, threading the flattened
accumulator (Object.assign of a recursive result is replayed as in-place
writes, which produces the same ordered entry list).  Object.entries of
null throws. -/
def flattenTokenCategory (fuel : Nat) (raw : Json) : Json → String → JsonObj → Option JsonObj
  | .null, _, _ => none
  | .obj es, pre, acc => flatO fuel raw es pre acc
  | .arr xs, pre, acc => flatL fuel raw xs 0 pre acc
  | .str s, pre, acc => flatChars fuel raw s.data 0 pre acc
  | _, _, acc => some acc

/-- flattenTokenCategory over object entries. -/
def flatO (fuel : Nat) (raw : Json) : JsonObj → String → JsonObj → Option JsonObj
  | .nil, _, acc => some acc
  | .cons k v rest, pre, acc => do
      let newKey := if !(pre = "") then pre ++ "-" ++ k else k
      let acc2 ←
        if truthy v && typeofObject v && (getProp v "value").isSome then do
          let r ← resolveTokenValue fuel ((getProp v "value").getD .null) raw
          pure (setO acc newKey r)
        else if truthy v && typeofObject v && !(isArrB v) then
          flattenTokenCategory fuel raw v newKey acc
        else do
          let r ← resolveTokenValue fuel v raw
          pure (setO acc newKey r)
      flatO fuel raw rest pre acc2

/-- flattenTokenCategory over array elements (index keys). -/
def flatL (fuel : Nat) (raw : Json) : JsonList → Nat → String → JsonObj → Option JsonObj
  | .nil, _, _, acc => some acc
  | .cons v rest, i, pre, acc => do
      let newKey := if !(pre = "") then pre ++ "-" ++ toString i else toString i
      let acc2 ←
        if truthy v && typeofObject v && (getProp v "value").isSome then do
          let r ← resolveTokenValue fuel ((getProp v "value").getD .null) raw
          pure (setO acc newKey r)
        else if truthy v && typeofObject v && !(isArrB v) then
          flattenTokenCategory fuel raw v newKey acc
        else do
          let r ← resolveTokenValue fuel v raw
          pure (setO acc newKey r)
      flatL fuel raw rest (i + 1) pre acc2

end

/-- TokenProcessor.extractColors. -/
def extractColors (fuel : Nat) (raw : Json) (tokens : Json) : Option Json := do
  let core ← memJs tokens "core"
  let coreColors := optChain core "colors"
  let sem ← memJs tokens "semantic"
  let semColors := optChain sem "colors"
  if truthyO coreColors || truthyO semColors then do
    let p1 ← preserveNestedStructure fuel raw (orJs coreColors (Json.obj .nil))
    let p2 ← preserveNestedStructure fuel raw (orJs semColors (Json.obj .nil))
    pure (Json.obj (assignO (assignO .nil p1) p2))
  else do
    let color ← memJs tokens "color"
    if truthyO color then do
      let p ← preserveNestedStructure fuel raw (color.getD .null)
      pure (Json.obj (assignO .nil p))
    else do
      let colors ← memJs tokens "colors"
      if truthyO colors then do
        let p ← preserveNestedStructure fuel raw (colors.getD .null)
        pure (Json.obj (assignO .nil p))
      else pure (Json.obj .nil)

/-- TokenProcessor.extractSpacing. -/
def extractSpacing (fuel : Nat) (raw : Json) (tokens : Json) : Option Json := do
  let core ← memJs tokens "core"
  let cs := optChain core "spacing"
  if truthyO cs then do
    let f ← flattenTokenCategory fuel raw (cs.getD .null) "" .nil
    pure (Json.obj (assignO .nil f))
  else do
    let sp ← memJs tokens "spacing"
    if truthyO sp then do
      let f ← flattenTokenCategory fuel raw (sp.getD .null) "" .nil
      pure (Json.obj (assignO .nil f))
    else pure (Json.obj .nil)

/-- TokenProcessor.extractSizing. -/
def extractSizing (fuel : Nat) (raw : Json) (tokens : Json) : Option Json := do
  let core ← memJs tokens "core"
  let cs := optChain core "sizing"
  if truthyO cs then do
    let f ← flattenTokenCategory fuel raw (cs.getD .null) "" .nil
    pure (Json.obj (assignO .nil f))
  else do
    let sp ← memJs tokens "sizing"
    if truthyO sp then do
      let f ← flattenTokenCategory fuel raw (sp.getD .null) "" .nil
      pure (Json.obj (assignO .nil f))
    else pure (Json.obj .nil)

/-- TokenProcessor.extractBorderRadius, including its documented default
scale when nothing matched. -/
def extractBorderRadius (fuel : Nat) (raw : Json) (tokens : Json) : Option Json := do
  let core ← memJs tokens "core"
  let cbr := optChain core "borderRadius"
  let br ←
    if truthyO cbr then flattenTokenCategory fuel raw (cbr.getD .null) "" .nil
    else do
      let b ← memJs tokens "borderRadius"
      if truthyO b then flattenTokenCategory fuel raw (b.getD .null) "" .nil
      else do
        let r ← memJs tokens "radius"
        if truthyO r then flattenTokenCategory fuel raw (r.getD .null) "" .nil
        else pure .nil
  if (toListO br).length = 0 then
    pure (jsonOfO [("none", .str "0"), ("sm", .str "0.125rem"), ("base", .str "0.25rem"),
      ("md", .str "0.375rem"), ("lg", .str "0.5rem"), ("xl", .str "0.75rem"),
      ("full", .str "9999px")])
  else pure (Json.obj br)

/-- TokenProcessor.extractTypography, with the Token Studio text branch
and the default font families when none were found. -/
def extractTypography (fuel : Nat) (raw : Json) (tokens : Json) : Option Json := do
  let core ← memJs tokens "core"
  let coreTypo := optChain core "typography"
  let typo ← memJs tokens "typography"
  let text ← memJs tokens "text"
  let typoData : Json :=
    if truthyO coreTypo then coreTypo.getD .null
    else if truthyO typo then typo.getD .null
    else if truthyO text then text.getD .null
    else Json.obj .nil
  let mut fontFamily : JsonObj := .nil
  let mut fontSize : JsonObj := .nil
  let mut fontWeight : JsonObj := .nil
  let mut lineHeight : JsonObj := .nil
  let mut letterSpacing : JsonObj := .nil
  if truthyO text then
    if truthyO (getProp typoData "font family") then
      fontFamily ← flattenTokenCategory fuel raw ((getProp typoData "font family").getD .null) "" .nil
    if truthyO (getProp typoData "font-size") then
      fontSize ← flattenTokenCategory fuel raw ((getProp typoData "font-size").getD .null) "" .nil
    if truthyO (getProp typoData "font weight") then
      fontWeight ← flattenTokenCategory fuel raw ((getProp typoData "font weight").getD .null) "" .nil
    if truthyO (getProp typoData "font line height") then
      lineHeight ← flattenTokenCategory fuel raw ((getProp typoData "font line height").getD .null) "" .nil
  else
    if truthyO (getProp typoData "fontFamily") then
      fontFamily ← flattenTokenCategory fuel raw ((getProp typoData "fontFamily").getD .null) "" .nil
    if truthyO (getProp typoData "fontSize") then
      fontSize ← flattenTokenCategory fuel raw ((getProp typoData "fontSize").getD .null) "" .nil
    if truthyO (getProp typoData "fontWeight") then
      fontWeight ← flattenTokenCategory fuel raw ((getProp typoData "fontWeight").getD .null) "" .nil
    if truthyO (getProp typoData "lineHeight") then
      lineHeight ← flattenTokenCategory fuel raw ((getProp typoData "lineHeight").getD .null) "" .nil
    if truthyO (getProp typoData "letterSpacing") then
      letterSpacing ← flattenTokenCategory fuel raw ((getProp typoData "letterSpacing").getD .null) "" .nil
  if (toListO fontFamily).length = 0 then
    fontFamily := jO [("sans", .str "Inter, system-ui, sans-serif"),
      ("mono", .str "Fira Code, monospace")]
  pure (jsonOfO [("fontFamily", .obj fontFamily), ("fontSize", .obj fontSize),
    ("fontWeight", .obj fontWeight), ("lineHeight", .obj lineHeight),
    ("letterSpacing", .obj letterSpacing)])

/-- TokenProcessor.extractTokenCategory: the core variant of the category
wins, then the top-level one; the inner none is the null the source
returns when neither matched. -/
def extractTokenCategory (fuel : Nat) (raw : Json) (tokens : Json) (category : String) :
    Option (Option JsonObj) := do
  let core ← memJs tokens "core"
  let cc := optChain core category
  if truthyO cc then do
    let f ← flattenTokenCategory fuel raw (cc.getD .null) "" .nil
    pure (some f)
  else do
    let c ← memJs tokens category
    if truthyO c then do
      let f ← flattenTokenCategory fuel raw (c.getD .null) "" .nil
      pure (some f)
    else pure none

/-- TokenProcessor.extractShadows with its defaults. -/
def extractShadows (fuel : Nat) (raw : Json) (tokens : Json) : Option Json := do
  let c ← extractTokenCategory fuel raw tokens "shadows"
  pure (match c with
    | some f => Json.obj f
    | none => jsonOfO [("sm", .str "0 1px 2px 0 rgb(0 0 0 / 0.05)"),
        ("md", .str "0 4px 6px -1px rgb(0 0 0 / 0.1)"),
        ("lg", .str "0 10px 15px -3px rgb(0 0 0 / 0.1)"),
        ("xl", .str "0 20px 25px -5px rgb(0 0 0 / 0.1)")])

/-- TokenProcessor.extractOpacity with its defaults. -/
def extractOpacity (fuel : Nat) (raw : Json) (tokens : Json) : Option Json := do
  let c ← extractTokenCategory fuel raw tokens "opacity"
  pure (match c with
    | some f => Json.obj f
    | none => jsonOfO [("0", .str "0"), ("25", .str "0.25"), ("50", .str "0.5"),
        ("75", .str "0.75"), ("100", .str "1")])

/-- TokenProcessor.extractZIndex with its numeric defaults. -/
def extractZIndex (fuel : Nat) (raw : Json) (tokens : Json) : Option Json := do
  let c ← extractTokenCategory fuel raw tokens "zIndex"
  pure (match c with
    | some f => Json.obj f
    | none => jsonOfO [("auto", .num ⟨0, 1⟩), ("base", .num ⟨1, 1⟩),
        ("dropdown", .num ⟨1000, 1⟩), ("modal", .num ⟨1040, 1⟩),
        ("popover", .num ⟨1050, 1⟩), ("tooltip", .num ⟨1060, 1⟩)])

/-- TokenProcessor.extractTransitions with its defaults. -/
def extractTransitions (fuel : Nat) (raw : Json) (tokens : Json) : Option Json := do
  let d ← extractTokenCategory fuel raw tokens "transitionDuration"
  let e ← extractTokenCategory fuel raw tokens "transitionEasing"
  let dur := match d with
    | some f => Json.obj f
    | none => jsonOfO [("fast", .str "150ms"), ("normal", .str "300ms"), ("slow", .str "500ms")]
  let eas := match e with
    | some f => Json.obj f
    | none => jsonOfO [("linear", .str "linear"), ("ease", .str "ease"),
        ("ease-in", .str "ease-in"), ("ease-out", .str "ease-out"),
        ("ease-in-out", .str "ease-in-out")]
  pure (jsonOfO [("duration", dur), ("easing", eas)])

/-- TokenProcessor.extractBreakpoints with its defaults. -/
def extractBreakpoints (fuel : Nat) (raw : Json) (tokens : Json) : Option Json := do
  let c ← extractTokenCategory fuel raw tokens "breakpoints"
  pure (match c with
    | some f => Json.obj f
    | none => jsonOfO [("sm", .str "640px"), ("md", .str "768px"), ("lg", .str "1024px"),
        ("xl", .str "1280px"), ("2xl", .str "1536px")])

/-- TokenProcessor.extractSemanticTokens: preserveNestedStructure applied
per semantic category. -/
def extractSemanticTokens (fuel : Nat) (raw : Json) (tokens : Json) : Option Json := do
  let s ← memJs tokens "semantic"
  if truthyO s then do
    let sv := s.getD .null
    let o ← (entriesJson sv).foldlM
      (fun acc p => do
        let inner ← preserveNestedStructure fuel raw p.2
        pure (setO acc p.1 (Json.obj inner)))
      JsonObj.nil
    pure (Json.obj o)
  else pure (Json.obj .nil)

/-- TokenProcessor.extractComponentProperties: a value-bearing property
resolves its value, a nested object resolves each value-bearing
sub-property and copies the rest verbatim, anything else resolves
directly.  Object.entries of null throws. -/
def extractComponentProperties (fuel : Nat) (raw : Json) : Json → Option JsonObj
  | .null => none
  | cd =>
      (entriesJson cd).foldlM
        (fun acc p =>
          let pv := p.2
          if truthy pv && typeofObject pv && (getProp pv "value").isSome then do
            let r ← resolveTokenValue fuel ((getProp pv "value").getD .null) raw
            pure (setO acc p.1 r)
          else if truthy pv && typeofObject pv && !(isArrB pv) then do
            let inner ← (entriesJson pv).foldlM
              (fun acc2 q =>
                let sv := q.2
                if truthy sv && typeofObject sv && (getProp sv "value").isSome then do
                  let r ← resolveTokenValue fuel ((getProp sv "value").getD .null) raw
                  pure (setO acc2 q.1 r)
                else pure (setO acc2 q.1 sv))
              JsonObj.nil
            pure (setO acc p.1 (Json.obj inner))
          else do
            let r ← resolveTokenValue fuel pv raw
            pure (setO acc p.1 r))
        JsonObj.nil

/-- TokenProcessor.extractComponentTokens. -/
def extractComponentTokens (fuel : Nat) (raw : Json) (tokens : Json) : Option Json := do
  let c ← memJs tokens "component"
  if truthyO c then do
    let cv := c.getD .null
    let o ← (entriesJson cv).foldlM
      (fun acc p => do
        let inner ← extractComponentProperties fuel raw p.2
        pure (setO acc p.1 (Json.obj inner)))
      JsonObj.nil
    pure (Json.obj o)
  else pure (Json.obj .nil)

/-- The per-leaf token record built during tree walks:
name, value, type, path.  The name can be overwritten by a name transform
with an arbitrary value, so it is kept as a Json value. -/
structure JsToken where
  name : Json
  value : Json
  ttype : Option Json
  path : List String

/-- A registered transform: its kind string, optional matcher and
transformer.  Matcher and transformer are arbitrary JavaScript functions,
so both may throw (none). -/
structure JsTransform where
  kind : String
  matcher : Option (JsToken → Option Bool)
  transformer : JsToken → Option Json

/-- The token-node test used by both engines:
value && typeof value === "object" && value.value !== undefined. -/
def isTokenNode (v : Json) : Bool :=
  truthy v && typeofObject v && (getProp v "value").isSome

/-- Build the token record for a leaf at a path. -/
def mkToken (path : List String) (v : Json) : JsToken :=
  { name := .str (String.intercalate "." path)
    value := (getProp v "value").getD .null
    ttype := getProp v "type"
    path := path }

/-- The spread rebuild of a token node: every entry kept in place, the
value entry replaced. -/
def spreadSetValue : Json → Json → Json
  | .obj es, nv => .obj (go es nv)
  | v, _ => v
where
  go : JsonObj → Json → JsonObj
    | .nil, _ => .nil
    | .cons k v rest, nv => .cons k (if k = "value" then nv else v) (go rest nv)

/-- The built-in transform registry of TransformEngine
(registerBuiltInTransforms).  color/hex returns string values unchanged
but throws on a non-string value (value.startsWith); size/rem converts
trailing px to rem at base 16; typography/css/shorthand folds the value
object into a CSS shorthand string; name/kebab rewrites only the token
name. -/
def builtinTransforms (n : String) : Option JsTransform :=
  if n = "color/hex" then
    some { kind := "value"
           matcher := some (fun t => some (decide (t.ttype = some (.str "color"))))
           transformer := fun t =>
             match t.value with
             | .str s => some (.str s)
             | _ => none }
  else if n = "color/hexAlpha" then
    some { kind := "value"
           matcher := some (fun t =>
             if t.ttype = some (.str "color") then
               match t.value with
               | .str s => some (hasSub s "rgba")
               | _ => none
             else some false)
           transformer := fun t => some t.value }
  else if n = "size/rem" then
    some { kind := "value"
           matcher := some (fun t => some (decide (t.ttype = some (.str "spacing") ∨
             t.ttype = some (.str "sizing") ∨ t.ttype = some (.str "borderRadius"))))
           transformer := fun t =>
             match t.value with
             | .str s =>
                 if strEnds s "px" then
                   match jsParseFloat s with
                   | some q => some (.str (numToString ⟨q.num, q.den * 16⟩ ++ "rem"))
                   | none => some (.str "NaNrem")
                 else some (.str s)
             | v => some v }
  else if n = "typography/css/shorthand" then
    some { kind := "value"
           matcher := some (fun t => some (decide (t.ttype = some (.str "typography"))))
           transformer := fun t =>
             match t.value with
             | .null => none
             | v => some (.str (jsToStringU (getProp v "fontWeight") ++ " " ++
                 jsToStringU (getProp v "fontSize") ++ "/" ++
                 jsToStringU (getProp v "lineHeight") ++ " " ++
                 jsToStringU (getProp v "fontFamily"))) }
  else if n = "name/kebab" then
    some { kind := "name"
           matcher := none
           transformer := fun t =>
             match t.name with
             | .str s => some (.str (lowerStr (kebabIns s)))
             | _ => none }
  else none

/-- Application of the named transforms, in order, to one token record:
a missing registration is skipped, a present matcher gates the transform,
value transforms rewrite the value and name transforms the name. -/
def runTransforms (env : String → Option JsTransform) (names : List String)
    (t0 : JsToken) : Option JsToken :=
  names.foldlM
    (fun tok tname =>
      match env tname with
      | none => pure tok
      | some tr => do
          let fires ← match tr.matcher with
            | none => pure true
            | some m => m tok
          if fires then
            if tr.kind = "value" then do
              let nv ← tr.transformer tok
              pure { tok with value := nv }
            else if tr.kind = "name" then do
              let nn ← tr.transformer tok
              pure { tok with name := nn }
            else pure tok
          else pure tok)
    t0

/-- One token node under applyTransforms: run the transform chain and
rebuild the node with the transformed value (the transformed name is
computed but never written back into the tree). -/
def transformTokenNode (env : String → Option JsTransform) (names : List String)
    (path : List String) (v : Json) : Option Json := do
  let t ← runTransforms env names (mkToken path v)
  pure (spreadSetValue v t.value)

mutual

/-- The processTokens walk of applyTransforms: token nodes are rewritten,
other objects and arrays are recursed into, primitives are left alone. -/
def transformsGo (env : String → Option JsTransform) (names : List String) :
    Json → List String → Option Json
  | .obj es, path => (transformsGoO env names es path).map Json.obj
  | .arr xs, path => (transformsGoL env names xs 0 path).map Json.arr
  | x, _ => some x

/-- processTokens over object entries. -/
def transformsGoO (env : String → Option JsTransform) (names : List String) :
    JsonObj → List String → Option JsonObj
  | .nil, _ => some .nil
  | .cons k v rest, path =>
      (if isTokenNode v then transformTokenNode env names (path ++ [k]) v
       else transformsGo env names v (path ++ [k])).bind
        (fun v2 => (transformsGoO env names rest path).bind
          (fun r2 => some (.cons k v2 r2)))

/-- processTokens over array elements (index keys in the path). -/
def transformsGoL (env : String → Option JsTransform) (names : List String) :
    JsonList → Nat → List String → Option JsonList
  | .nil, _, _ => some .nil
  | .cons v rest, i, path =>
      (if isTokenNode v then transformTokenNode env names (path ++ [toString i]) v
       else transformsGo env names v (path ++ [toString i])).bind
        (fun v2 => (transformsGoL env names rest (i + 1) path).bind
          (fun r2 => some (.cons v2 r2)))

end

/-- The default transform list applied when none are supplied. -/
def defaultTransformNames : List String :=
  ["color/hex", "size/rem", "name/kebab"]

/-- TransformEngine.applyTransforms: an empty name list selects the
default transforms; the deep clone is the identity on parsed JSON. -/
def applyTransforms (env : String → Option JsTransform) (names : List String)
    (tokens : Json) : Option Json :=
  transformsGo env (if names.isEmpty then defaultTransformNames else names) tokens []

/-- The static platform map of createPlatformTokens. -/
def platformTransformNames (platform : String) : List String :=
  if platform = "web" ∨ platform = "ios" ∨ platform = "android" ∨
     platform = "react" ∨ platform = "flutter" then ["color/hex", "size/rem"]
  else []

/-- TransformEngine.createPlatformTokens. -/
def createPlatformTokens (env : String → Option JsTransform) (tokens : Json)
    (platform : String) : Option Json :=
  applyTransforms env (platformTransformNames platform) tokens

/-- The filter conjunction of applyFilters: a token passes when no
registered filter among the supplied names rejects it. -/
def filtersPass (env : String → Option (JsToken → Bool)) (names : List String)
    (tok : JsToken) : Bool :=
  names.all (fun n =>
    match env n with
    | none => true
    | some f => f tok)

/-- The result-insertion walk of the applyFilters token branch: starting
from the result object of the CURRENT level, walk every path segment but
the last of the FULL path from the root (creating empty objects where the
step is falsy), then write the token there.  Writing through a primitive
would be a strict-mode TypeError (none). -/
def sinkToken : Json → List String → String → Json → Option Json
  | r, [], k, v => jsSetJ r k v
  | r, p :: ps, k, v =>
      if truthyO (getProp r p) then do
        let sub ← sinkToken ((getProp r p).getD .null) ps k v
        jsSetJ r p sub
      else do
        let r1 ← jsSetJ r p (Json.obj .nil)
        let sub ← sinkToken (Json.obj .nil) ps k v
        jsSetJ r1 p sub

mutual

/-- The processTokens walk of applyFilters, threading the mutated result
value; non-object input contributes nothing. -/
def filterGo (env : String → Option (JsToken → Bool)) (names : List String) :
    Json → Json → List String → Option Json
  | .obj es, result, path => filterGoO env names es result path
  | .arr xs, result, path => filterGoL env names xs 0 result path
  | _, result, _ => some result

/-- applyFilters walk over object entries. -/
def filterGoO (env : String → Option (JsToken → Bool)) (names : List String) :
    JsonObj → Json → List String → Option Json
  | .nil, result, _ => some result
  | .cons k v rest, result, path => do
      let result2 ←
        if isTokenNode v then
          if filtersPass env names (mkToken (path ++ [k]) v) then
            sinkToken result path k v
          else pure result
        else do
          let r1 ←
            if truthyO (getProp result k) then pure result
            else jsSetJ result k (Json.obj .nil)
          let sub ← filterGo env names v ((getProp r1 k).getD (Json.obj .nil)) (path ++ [k])
          jsSetJ r1 k sub
      filterGoO env names rest result2 path

/-- applyFilters walk over array elements. -/
def filterGoL (env : String → Option (JsToken → Bool)) (names : List String) :
    JsonList → Nat → Json → List String → Option Json
  | .nil, _, result, _ => some result
  | .cons v rest, i, result, path => do
      let result2 ←
        if isTokenNode v then
          if filtersPass env names (mkToken (path ++ [toString i]) v) then
            sinkToken result path (toString i) v
          else pure result
        else do
          let r1 ←
            if truthyO (getProp result (toString i)) then pure result
            else jsSetJ result (toString i) (Json.obj .nil)
          let sub ← filterGo env names v ((getProp r1 (toString i)).getD (Json.obj .nil))
            (path ++ [toString i])
          jsSetJ r1 (toString i) sub
      filterGoL env names rest (i + 1) result2 path

end

/-- TransformEngine.applyFilters: an empty name list returns the tree
unchanged, otherwise the walk rebuilds into a fresh object. -/
def applyFilters (env : String → Option (JsToken → Bool)) (names : List String)
    (tokens : Json) : Option Json :=
  if names.isEmpty then some tokens
  else filterGo env names tokens (Json.obj .nil) []

/-- The assembled model object of transformTokens. -/
def transformedModel (colors spacing typography borderRadius sizing shadows opacity
    zIndex transitions breakpoints semantic component : Json)
    (now : String) (resolved p2 : Json) : Json :=
  jsonOfO [("colors", colors), ("spacing", spacing), ("typography", typography),
    ("borderRadius", borderRadius), ("sizing", sizing), ("shadows", shadows),
    ("opacity", opacity), ("zIndex", zIndex), ("transitions", transitions),
    ("breakpoints", breakpoints), ("semantic", semantic), ("component", component),
    ("source", .str "tokens.json"), ("lastLoaded", .str now),
    ("_resolvedTokens", resolved), ("_processedTokens", p2)]

/-- The if (this.config?.transforms) step of transformTokens. -/
def cfgApplyTransforms (tEnv : String → Option JsTransform)
    (cfg : Option (List String)) (t : Json) : Option Json :=
  match cfg with
  | some ns => applyTransforms tEnv ns t
  | none => some t

/-- The if (this.config?.filters) step of transformTokens. -/
def cfgApplyFilters (fEnv : String → Option (JsToken → Bool))
    (cfg : Option (List String)) (t : Json) : Option Json :=
  match cfg with
  | some ns => applyFilters fEnv ns t
  | none => some t

/-- TokenProcessor.transformTokens: resolve every reference, apply the
configured transforms and filters if any, then extract every category.
The extractor resolutions run against the original raw tree, exactly as
this.rawTokens does in the source.  now stands in for the
new Date().toISOString() timestamp. -/
def transformTokens (tEnv : String → Option JsTransform)
    (fEnv : String → Option (JsToken → Bool))
    (cfgTransforms cfgFilters : Option (List String))
    (fuel : Nat) (now : String) (raw : Json) : Option Json := do
  let resolved ← resolveAllTokenReferences fuel raw
  let p1 ← cfgApplyTransforms tEnv cfgTransforms resolved
  let p2 ← cfgApplyFilters fEnv cfgFilters p1
  let colors ← extractColors fuel raw p2
  let spacing ← extractSpacing fuel raw p2
  let typography ← extractTypography fuel raw p2
  let borderRadius ← extractBorderRadius fuel raw p2
  let sizing ← extractSizing fuel raw p2
  let shadows ← extractShadows fuel raw p2
  let opacity ← extractOpacity fuel raw p2
  let zIndex ← extractZIndex fuel raw p2
  let transitions ← extractTransitions fuel raw p2
  let breakpoints ← extractBreakpoints fuel raw p2
  let semantic ← extractSemanticTokens fuel raw p2
  let component ← extractComponentTokens fuel raw p2
  pure (transformedModel colors spacing typography borderRadius sizing shadows opacity
    zIndex transitions breakpoints semantic component now resolved p2)

/-- The twelve category keys the model always carries. -/
def categoryKeys : List String :=
  ["colors", "spacing", "typography", "borderRadius", "sizing", "shadows",
   "opacity", "zIndex", "transitions", "breakpoints", "semantic", "component"]

mutual

/-- Erasure of the mutable parts of a tree under applyTransforms: the
value entry of every token node is blanked, everything else is kept.
Two trees are equal after stripValues exactly when they have the same
key structure everywhere and differ at most in token values. -/
def stripValues : Json → Json
  | .obj es => .obj (stripValuesO es)
  | .arr xs => .arr (stripValuesL xs)
  | x => x

/-- stripValues over object entries. -/
def stripValuesO : JsonObj → JsonObj
  | .nil => .nil
  | .cons k v rest =>
      .cons k (if isTokenNode v then eraseValueEntry v else stripValues v) (stripValuesO rest)

/-- stripValues over array elements. -/
def stripValuesL : JsonList → JsonList
  | .nil => .nil
  | .cons v rest =>
      .cons (if isTokenNode v then eraseValueEntry v else stripValues v) (stripValuesL rest)

/-- Blank the value entry of a token node, keeping every other entry
verbatim (transforms copy them verbatim through the spread). -/
def eraseValueEntry : Json → Json
  | .obj es => .obj (eraseValueO es)
  | v => v

/-- Entry-list part of eraseValueEntry. -/
def eraseValueO : JsonObj → JsonObj
  | .nil => .nil
  | .cons k v rest => .cons k (if k = "value" then Json.null else v) (eraseValueO rest)

end

/-- The summary block of the validation result. -/
structure VSummary where
  totalCategories : Nat
  validatedTokens : Nat
  errorCount : Nat
  warningCount : Nat
  deriving DecidableEq

/-- The structured diagnostics object returned by TokenValidator.validate. -/
structure VResult where
  isValid : Bool
  errors : List String
  warnings : List String
  summary : VSummary
  deriving DecidableEq

/-- The slice of the loaded configuration the validator reads:
tokens.validation.required and tokens.validation.optional. -/
structure VConfig where
  required : List String
  optional : List String
  deriving DecidableEq

/-- The fallback lists used when the configuration has none. -/
def defaultVConfig : VConfig :=
  { required := ["colors"], optional := ["spacing", "typography"] }

/-- TokenValidator.getCorrectCategory. -/
def getCorrectCategory (typo : String) : String :=
  if typo = "colour" then "colors"
  else if typo = "color" then "colors"
  else if typo = "spacings" then "spacing"
  else if typo = "typo" then "typography"
  else if typo = "fonts" then "typography"
  else typo

/-- Property read in the validator with the thrown TypeError explicit. -/
def memE (j : Json) (k : String) : Except String (Option Json) :=
  match j with
  | .null => .error "TypeError: Cannot read properties of null"
  | _ => .ok (getProp j k)

/-- The hex color pattern.  -/
def isHexColor (s : String) : Bool :=
  match s.data with
  | '#' :: rest => (rest.length = 6 || rest.length = 3) && rest.all isHexChar
  | _ => false

/-- Case-insensitive prefix strip against a lowercase pattern. -/
def stripCI : List Char → List Char → Option (List Char)
  | [], cs => some cs
  | p :: ps, c :: cs => if Char.toLower c = p then stripCI ps cs else none
  | _ :: _, [] => none

/-- The functional color pattern name(body) with an optional trailing
a in the name and a nonempty body drawn from a character class. -/
def isFnColor (name : List Char) (cls : Char → Bool) (s : String) : Bool :=
  match stripCI name s.data with
  | none => false
  | some rest =>
      let rest2 := match rest with
        | c :: cs => if Char.toLower c = 'a' then cs else c :: cs
        | [] => []
      match rest2 with
      | '(' :: body =>
          (match body.reverse with
           | ')' :: midRev => midRev ≠ [] && midRev.all cls
           | _ => false)
      | _ => false

/-- The class inside rgb(...): digits, whitespace, comma, dot, slash. -/
def rgbClass (c : Char) : Bool :=
  c.isDigit || isWsChar c || c = ',' || c = '.' || c = '/'

/-- The class inside hsl(...), which also allows the percent sign. -/
def hslClass (c : Char) : Bool :=
  rgbClass c || c = '%'

/-- TokenValidator.isValidColor: hex, rgb and hsl functional notation,
named colors, and bracketed token references; non-strings fail. -/
def isValidColor : Json → Bool
  | .str s =>
      isHexColor s || isFnColor ['r', 'g', 'b'] rgbClass s ||
      isFnColor ['h', 's', 'l'] hslClass s ||
      (s.data ≠ [] && s.data.all isLetterAscii) ||
      (strStarts s "\x7b" && strEnds s "\x7d")
  | _ => false

/-- TokenValidator.isValidSpacing: a digits-and-dots run with an optional
alphabetic or percent unit, the literal zero, or a token reference. -/
def isValidSpacing : Json → Bool
  | .str s =>
      (let a := s.data.takeWhile (fun c => c.isDigit || c = '.')
       let b := s.data.drop a.length
       a ≠ [] && b.all (fun c => isLetterAscii c || c = '%')) ||
      s = "0" || (strStarts s "\x7b" && strEnds s "\x7d")
  | _ => false

/-- TokenValidator.isNumericShade. -/
def isNumericShade (s : String) : Bool :=
  s.data ≠ [] && s.data.all Char.isDigit

/-- parseInt on an all-digit string. -/
def parseNatDigits (s : String) : Nat :=
  s.data.foldl (fun a c => a * 10 + (c.toNat - 48)) 0

/-- The typo list checked by validateStructure. -/
def commonTypos : List String :=
  ["colour", "color", "spacings", "typo", "fonts"]

/-- TokenValidator.validateStructure: no property is dereferenced through
a possibly-null base here, so this step never throws. -/
def validateStructure (tokens : Json) : List String × List String :=
  if !(truthy tokens) || !(typeofObject tokens) then (["Tokens must be an object"], [])
  else
    let e := if !(truthyO (getProp tokens "colors")) then
        ["Missing colors category - this is required"] else []
    let w := commonTypos.foldl
      (fun acc typo =>
        if truthyO (getProp tokens typo) &&
           !(truthyO (getProp tokens (getCorrectCategory typo))) then
          acc ++ ["Found \"" ++ typo ++ "\" - did you mean \"" ++
            getCorrectCategory typo ++ "\"?"]
        else acc)
      []
    (e, w)

/-- TokenValidator.validateRequiredCategories: the unguarded reads
tokens[category] and tokens.colors throw when tokens is null. -/
def validateRequiredCategories (cfg : VConfig) (tokens : Json) :
    Except String (List String × List String) := do
  let e1 ← cfg.required.foldlM
    (fun (acc : List String) category => do
      let v ← memE tokens category
      if !(truthyO v) then
        pure (acc ++ ["Missing required token category: " ++ category])
      else if (keysJson (v.getD .null)).length = 0 then
        pure (acc ++ ["Missing required token category: " ++ category])
      else pure acc)
    []
  let c ← memE tokens "colors"
  let e2 :=
    if truthyO c then
      ["primary"].foldl
        (fun (acc : List String) cc =>
          let pc := getProp (c.getD .null) cc
          if !(truthyO pc) || (keysJson (pc.getD .null)).length = 0 then
            acc ++ ["Missing required color category: colors." ++ cc]
          else acc)
        []
    else []
  pure (e1 ++ e2, [])

/-- TokenValidator.validateOptionalCategories. -/
def validateOptionalCategories (cfg : VConfig) (tokens : Json) :
    Except String (List String × List String) := do
  let w ← cfg.optional.foldlM
    (fun (acc : List String) category => do
      let v ← memE tokens category
      if !(truthyO v) then
        pure (acc ++ ["Optional token category not found: " ++ category])
      else pure acc)
    []
  pure ([], w)

/-- The common shade list suggested by validateColors. -/
def commonShades : List String :=
  ["100", "200", "300", "400", "500", "600", "700", "800", "900"]

/-- TokenValidator.validateColors. -/
def validateColors (tokens : Json) : Except String (List String × List String) := do
  let c ← memE tokens "colors"
  if !(truthyO c) then pure ([], [])
  else
    let cv := c.getD .null
    pure ((entriesJson cv).foldl
      (fun (acc : List String × List String) p =>
        let category := p.1
        let shades := p.2
        if !(truthy shades) || !(typeofObject shades) then
          (acc.1 ++ ["Invalid color category structure: colors." ++ category], acc.2)
        else
          let inner := (entriesJson shades).foldl
            (fun (acc2 : List String × List String) q =>
              let shade := q.1
              let value := q.2
              let acc3 :=
                if !(isValidColor value) then
                  (acc2.1 ++ ["Invalid color value: colors." ++ category ++ "." ++
                    shade ++ " = \"" ++ jsToString value ++ "\""], acc2.2)
                else acc2
              if isNumericShade shade then
                let n := parseNatDigits shade
                if n < 50 || n > 950 || !(n % 50 = 0) then
                  (acc3.1, acc3.2 ++ ["Unusual shade value: colors." ++ category ++
                    "." ++ shade ++ " (consider using 50, 100, 200... 900, 950)"])
                else acc3
              else acc3)
            acc
          if (keysJson shades).any isNumericShade then
            let missing := commonShades.filter (fun sh => !(truthyO (getProp shades sh)))
            if missing.length > 0 then
              (inner.1, inner.2 ++ ["Consider adding common shades to colors." ++
                category ++ ": " ++ String.intercalate ", " missing])
            else inner
          else inner)
      ([], []))

/-- The spacing keys validateSpacing expects. -/
def requiredSpacing : List String :=
  ["0", "1", "2", "4", "8", "16"]

/-- TokenValidator.validateSpacing. -/
def validateSpacing (tokens : Json) : Except String (List String × List String) := do
  let spO ← memE tokens "spacing"
  if !(truthyO spO) then pure ([], [])
  else
    let spv := spO.getD .null
    let missing := requiredSpacing.filter (fun sp => !(truthyO (getProp spv sp)))
    let ws := if missing.length > 0 then
        ["Missing common spacing values: " ++ String.intercalate ", " missing] else []
    let es := (entriesJson spv).foldl
      (fun (acc : List String) q =>
        if !(isValidSpacing q.2) then
          acc ++ ["Invalid spacing value: spacing." ++ q.1 ++ " = \"" ++
            jsToString q.2 ++ "\""]
        else acc)
      []
    pure (es, ws)

/-- TokenValidator.validateTypography. -/
def validateTypography (tokens : Json) : Except String (List String × List String) := do
  let tO ← memE tokens "typography"
  if !(truthyO tO) then pure ([], [])
  else
    let tv := tO.getD .null
    let ws1 := if !(truthyO (getProp tv "fontFamily")) then
        ["Missing typography category: typography.fontFamily"] else []
    let ff := getProp tv "fontFamily"
    let es2 :=
      if truthyO ff then
        let ffv := ff.getD .null
        let e0 := if !(truthyO (getProp ffv "sans")) then
            ["Missing sans-serif font family (typography.fontFamily.sans)"] else []
        e0 ++ (entriesJson ffv).foldl
          (fun (acc : List String) q =>
            let bad : Bool := match q.2 with
              | .str s => trimJs s = ""
              | _ => true
            if bad then
              acc ++ ["Invalid font family: typography.fontFamily." ++ q.1 ++
                " = \"" ++ jsToString q.2 ++ "\""]
            else acc)
          []
      else []
    let es3 :=
      if truthyO (getProp tv "fontSize") then
        (entriesJson ((getProp tv "fontSize").getD .null)).foldl
          (fun (acc : List String) q =>
            if !(isValidSpacing q.2) then
              acc ++ ["Invalid font size: typography.fontSize." ++ q.1 ++
                " = \"" ++ jsToString q.2 ++ "\""]
            else acc)
          []
      else []
    pure (es2 ++ es3, ws1)

mutual

/-- TokenValidator.getAllTokenKeys: every key, descending into truthy
objects whose value field is falsy. -/
def allKeysJ : Json → List String
  | .obj es => allKeysO es
  | .arr xs => allKeysL xs 0
  | .str s => s.data.enum.map (fun p => toString p.1)
  | _ => []

/-- getAllTokenKeys over object entries. -/
def allKeysO : JsonObj → List String
  | .nil => []
  | .cons k v rest =>
      k :: ((if truthy v && typeofObject v && !(truthyO (getProp v "value"))
             then allKeysJ v else []) ++ allKeysO rest)

/-- getAllTokenKeys over array elements. -/
def allKeysL : JsonList → Nat → List String
  | .nil, _ => []
  | .cons v rest, i =>
      toString i :: ((if truthy v && typeofObject v && !(truthyO (getProp v "value"))
                      then allKeysJ v else []) ++ allKeysL rest (i + 1))

end

/-- The test /[a-z][A-Z]/ on a key. -/
def hasCamelPair (s : String) : Bool :=
  go s.data
where
  go : List Char → Bool
    | a :: b :: rest => (isLowerAscii a && isUpperAscii b) || go (b :: rest)
    | _ => false

/-- TokenValidator.validateNamingConsistency. -/
def validateNamingConsistency (tokens : Json) : List String :=
  let keys := allKeysJ tokens
  let n := (if keys.any (fun k => hasSub k "-") then 1 else 0) +
    (if keys.any hasCamelPair then 1 else 0) +
    (if keys.any (fun k => hasSub k "_") then 1 else 0)
  if n > 1 then
    ["Mixed naming conventions detected. Consider using consistent naming (kebab-case, camelCase, or snake_case)"]
  else []

/-- The dotted path join used while collecting token values. -/
def joinPath (path k : String) : String :=
  if !(path = "") then path ++ "." ++ k else k

mutual

/-- TokenValidator.getAllTokenValues. -/
def allValsJ : Json → String → List (String × Json)
  | .obj es, path => allValsO es path
  | .arr xs, path => allValsL xs 0 path
  | .str s, path =>
      s.data.enum.map (fun p => (joinPath path (toString p.1), Json.str (String.mk [p.2])))
  | _, _ => []

/-- getAllTokenValues over object entries. -/
def allValsO : JsonObj → String → List (String × Json)
  | .nil, _ => []
  | .cons k v rest, path =>
      (if truthy v && typeofObject v && (getProp v "value").isSome then
         [(joinPath path k, (getProp v "value").getD .null)]
       else if truthy v && typeofObject v then allValsJ v (joinPath path k)
       else [(joinPath path k, v)]) ++ allValsO rest path

/-- getAllTokenValues over array elements. -/
def allValsL : JsonList → Nat → String → List (String × Json)
  | .nil, _, _ => []
  | .cons v rest, i, path =>
      (if truthy v && typeofObject v && (getProp v "value").isSome then
         [(joinPath path (toString i), (getProp v "value").getD .null)]
       else if truthy v && typeofObject v then allValsJ v (joinPath path (toString i))
       else [(joinPath path (toString i), v)]) ++ allValsL rest (i + 1) path

end

/-- Map-insertion grouping of collected values: first occurrence fixes
the group position, SameValueZero keying.  Distinct object values are
never SameValueZero-equal in JavaScript (reference identity) and compare
false under jsStrictEq, which agrees because parsed JSON has no aliasing. -/
def groupByValue (vals : List (String × Json)) : List (Json × List String) :=
  vals.foldl
    (fun acc p =>
      if acc.any (fun g => jsStrictEq g.1 p.2) then
        acc.map (fun g => if jsStrictEq g.1 p.2 then (g.1, g.2 ++ [p.1]) else g)
      else acc ++ [(p.2, [p.1])])
    []

/-- TokenValidator.validateValueConsistency via findDuplicateValues. -/
def validateValueConsistency (tokens : Json) : List String :=
  ((groupByValue (allValsJ tokens "")).filter (fun g => g.2.length > 1)).map
    (fun g => "Duplicate value \"" ++ jsToString g.1 ++ "\" found in: " ++
      String.intercalate ", " g.2)

/-- TokenValidator.parseSpacingValue: the leading [\d.]+ run fed to
parseFloat.  A run without any digit gives NaN in JavaScript and none
here; such a NaN would then flow through the scale arithmetic, affecting
at most which scale warning fires. -/
def parseSpacingValue : Json → Option JNum
  | .str s =>
      let lead := s.data.takeWhile (fun c => c.isDigit || c = '.')
      if lead = [] then none else jsParseFloat (String.mk lead)
  | _ => none

/-- Comparison of parsed spacing values (denominators here are positive
powers of ten). -/
def numLe (a b : JNum) : Bool :=
  a.num * b.den ≤ b.num * a.den

/-- Stable insertion sort matching the ascending numeric sort. -/
def sortNums (l : List JNum) : List JNum :=
  l.foldl insert []
where
  insert : List JNum → JNum → List JNum
    | [], x => [x]
    | y :: ys, x => if numLe y x then y :: insert ys x else x :: y :: ys

/-- Consecutive ratios of the sorted scale; a zero denominator encodes
the infinite ratio JavaScript produces on a zero step.  Nonfinite ratios
propagate differently through the average than IEEE arithmetic does,
which can only change whether the single scale warning fires. -/
def ratiosOf : List JNum → List JNum
  | a :: b :: rest => ⟨b.num * a.den, b.den * a.num⟩ :: ratiosOf (b :: rest)
  | _ => []

/-- Exact rational sum of the ratio list. -/
def sumNums (l : List JNum) : JNum :=
  l.foldl (fun a b => ⟨a.num * b.den + b.num * a.den, a.den * b.den⟩) ⟨0, 1⟩

/-- The test |r - avg| > 0.5 by cross multiplication. -/
def farFromAvg (r avg : JNum) : Bool :=
  let dn := r.num * avg.den - avg.num * r.den
  let dd := r.den * avg.den
  2 * dn.natAbs > dd.natAbs

/-- TokenValidator.validateScaleConsistency (rational arithmetic in place
of IEEE doubles; exact for the finite decimal scales handled here). -/
def validateScaleConsistency (tokens : Json) : List String :=
  let spO := getProp tokens "spacing"
  if truthyO spO then
    let sorted := sortNums ((valuesJson (spO.getD .null)).filterMap parseSpacingValue)
    if sorted.length > 2 then
      let rs := ratiosOf sorted
      let avg : JNum := ⟨(sumNums rs).num, (sumNums rs).den * rs.length⟩
      let inconsistent := rs.filter (fun r => farFromAvg r avg)
      if 10 * inconsistent.length > 3 * rs.length then
        ["Spacing scale appears inconsistent. Consider using a consistent ratio or modular scale"]
      else []
    else []
  else []

/-- TokenValidator.validateConsistency: naming, duplicate values, scale.
The key and value walks start from Object.keys and Object.entries of the
root, which throw on null. -/
def validateConsistency (tokens : Json) : Except String (List String × List String) :=
  match tokens with
  | .null => .error "TypeError: Cannot read properties of null"
  | _ => .ok ([], validateNamingConsistency tokens ++ validateValueConsistency tokens ++
      validateScaleConsistency tokens)

/-- TokenValidator.countCategories. -/
def countCategoriesE (tokens : Json) : Except String Nat :=
  match tokens with
  | .null => .error "TypeError: Cannot read properties of null"
  | _ => .ok ((keysJson tokens).filter
      (fun k => typeofObject ((getProp tokens k).getD (Json.bool false)))).length

mutual

/-- The countInCategory closure of TokenValidator.countTokens. -/
def countInCat : Json → Nat
  | .obj es => countCatO es
  | .arr xs => countCatL xs
  | .str s => s.data.length
  | _ => 0

/-- countInCategory over object entries. -/
def countCatO : JsonObj → Nat
  | .nil => 0
  | .cons _ v rest =>
      (if truthy v && typeofObject v then
         (if (getProp v "value").isSome then 1 else countInCat v)
       else 1) + countCatO rest

/-- countInCategory over array elements. -/
def countCatL : JsonList → Nat
  | .nil => 0
  | .cons v rest =>
      (if truthy v && typeofObject v then
         (if (getProp v "value").isSome then 1 else countInCat v)
       else 1) + countCatL rest

end

/-- TokenValidator.countTokens: only object-typed top categories are
descended into. -/
def countTokensE (tokens : Json) : Except String Nat :=
  match tokens with
  | .null => .error "TypeError: Cannot read properties of null"
  | _ => .ok ((valuesJson tokens).foldl
      (fun acc cat => acc + (if truthy cat && typeofObject cat then countInCat cat else 0)) 0)

/-- TokenValidator.validate: run every step in order, collecting errors
and warnings, and assemble the diagnostics object.  The first thrown
TypeError aborts the whole call, exactly as in the source. -/
def validate (cfg : VConfig) (tokens : Json) : Except String VResult := do
  let s1 := validateStructure tokens
  let p2 ← validateRequiredCategories cfg tokens
  let p3 ← validateOptionalCategories cfg tokens
  let p4 ← validateColors tokens
  let p5 ← validateSpacing tokens
  let p6 ← validateTypography tokens
  let p7 ← validateConsistency tokens
  let errors := s1.1 ++ p2.1 ++ p3.1 ++ p4.1 ++ p5.1 ++ p6.1 ++ p7.1
  let warnings := s1.2 ++ p2.2 ++ p3.2 ++ p4.2 ++ p5.2 ++ p6.2 ++ p7.2
  let tc ← countCategoriesE tokens
  let vt ← countTokensE tokens
  pure { isValid := errors.isEmpty
         errors := errors
         warnings := warnings
         summary := { totalCategories := tc, validatedTokens := vt,
                      errorCount := errors.length, warningCount := warnings.length } }

/-- Chained property lookup used to state properties of produced models. -/
def modelGet (m : Json) (path : List String) : Option Json :=
  path.foldl
    (fun o k =>
      match o with
      | some j => getProp j k
      | none => none)
    (some m)

mutual

/-- All string leaves of a tree: exactly the strings the whole-tree
resolution feeds through resolveTokenValue. -/
def allStringsJ : Json → List String
  | .str s => [s]
  | .arr xs => allStringsL xs
  | .obj es => allStringsO es
  | _ => []

/-- String leaves below array elements. -/
def allStringsL : JsonList → List String
  | .nil => []
  | .cons v rest => allStringsJ v ++ allStringsL rest

/-- String leaves below object entries. -/
def allStringsO : JsonObj → List String
  | .nil => []
  | .cons _ v rest => allStringsJ v ++ allStringsO rest

end

/-- The cyclic two-token tree from the cycle-safety requirement. -/
def cycleTree : Json :=
  jsonOfO [("a", jsonOfO [("value", .str "\x7bb\x7d")]),
    ("b", jsonOfO [("value", .str "\x7ba\x7d")])]

/-- The three-layer raw tree of the end-to-end reference-chain scenario. -/
def chainRaw : Json :=
  jsonOfO [
    ("core", jsonOfO [("colors", jsonOfO [("primary", jsonOfO [("500", .str "#3b82f6")])])]),
    ("semantic", jsonOfO [("colors", jsonOfO [("brand", jsonOfO [("primary",
      jsonOfO [("value", .str "\x7bcore.colors.primary.500\x7d")])])])]),
    ("component", jsonOfO [("button", jsonOfO [("primary", jsonOfO [("backgroundColor",
      jsonOfO [("value", .str "\x7bsemantic.colors.brand.primary\x7d")])])])])]

/-- Color dialect one: top-level colors. -/
def dialectColors : Json :=
  jsonOfO [("colors", jsonOfO [("primary", jsonOfO [("500", .str "#fff")])])]

/-- Color dialect two: top-level singular color. -/
def dialectColor : Json :=
  jsonOfO [("color", jsonOfO [("primary", jsonOfO [("500", .str "#fff")])])]

/-- Color dialect three: Token Studio core.colors with value wrappers. -/
def dialectCore : Json :=
  jsonOfO [("core", jsonOfO [("colors", jsonOfO [("primary",
    jsonOfO [("500", jsonOfO [("value", .str "#fff")])])])])]

/-- A one-token spacing tree with a px value. -/
def pxTree : Json :=
  jsonOfO [("sm", jsonOfO [("value", .str "16px"), ("type", .str "spacing")])]

/-- A filter registry with one accept-all and one reject-all filter. -/
def twoFilters : String → Option (JsToken → Bool) := fun n =>
  if n = "all" then some (fun _ => true)
  else if n = "none" then some (fun _ => false)
  else none

/-- A depth-two tree with a single token leaf. -/
def nestedTokenTree : Json :=
  jsonOfO [("g", jsonOfO [("a", jsonOfO [("value", .str "1")])])]

/-- An acyclic tree whose first resolution turns a.value into an object,
making the previously dead reference in c resolvable. -/
def aliasTree : Json :=
  jsonOfO [
    ("a", jsonOfO [("value", .str "\x7bb\x7d")]),
    ("b", jsonOfO [("x", .str "2")]),
    ("c", jsonOfO [("value", .str "\x7ba.value.x\x7d")])]

/-- The result of one resolution pass over aliasTree. -/
def aliasTreeOnce : Json :=
  jsonOfO [
    ("a", jsonOfO [("value", jsonOfO [("x", .str "2")])]),
    ("b", jsonOfO [("x", .str "2")]),
    ("c", jsonOfO [("value", .str "\x7ba.value.x\x7d")])]

/-- A fully resolved tree: one literal token and one dead reference. -/
def settledTree : Json :=
  jsonOfO [("a", jsonOfO [("value", .str "#fff")]),
    ("b", jsonOfO [("value", .str "\x7bmissing.x\x7d")])]

/-- Claim C2: for the raw tree with core.colors.primary.500 = "#3b82f6",
semantic.colors.brand.primary referencing it, and
component.button.primary.backgroundColor referencing that, the full
pipeline (resolve references, then normalize) produces a model whose
component.button.primary.backgroundColor is the literal string
"#3b82f6": the two-hop reference chain resolves down to the final
literal. -/
theorem C2_chain_resolves_to_literal :
    (transformTokens (fun _ => none) (fun _ => none) none none 10 "" chainRaw).map
      (fun m => modelGet m ["component", "button", "primary", "backgroundColor"])
    = some (some (.str "#3b82f6")) := by
  decide

/-- Claim C4: the three accepted color input dialects (plural colors,
singular color, and Token Studio core.colors with value wrappers) all
normalize to the same extractColors output, whose primary.500 entry is
the literal "#fff". -/
theorem C4_color_dialects_normalize_equal :
    extractColors 5 dialectColors dialectColors = extractColors 5 dialectColor dialectColor ∧
    extractColors 5 dialectColor dialectColor = extractColors 5 dialectCore dialectCore ∧
    (extractColors 5 dialectColors dialectColors).map
      (fun m => modelGet m ["primary", "500"]) = some (some (.str "#fff")) := by
  decide

/-- Claim C5, counterexample: createPlatformTokens with the unknown
platform name "qt" is NOT the identity: the empty transform list it
produces makes applyTransforms fall back to the default transforms, and
size/rem rewrites the spacing token "16px" to "1rem". -/
theorem C5_unknown_platform_not_identity :
    createPlatformTokens builtinTransforms pxTree "qt" ≠ some pxTree ∧
    createPlatformTokens builtinTransforms pxTree "qt"
      = some (jsonOfO [("sm", jsonOfO [("value", .str "1rem"), ("type", .str "spacing")])]) := by
  decide

/-- Claim C6: on the depth-two tree with one token leaf, applyFilters
with a pass-all filter re-inserts the leaf under a duplicated path prefix
(g.g.a instead of g.a), and adding a reject-all filter shows the AND
semantics but leaves the emptied branch g as an empty object instead of
pruning it.  This contradicts the claimed shape preservation and
pruning. -/
theorem C6_filters_duplicate_prefix_and_keep_empty_groups :
    applyFilters twoFilters ["all"] nestedTokenTree
      = some (jsonOfO [("g", jsonOfO [("g", jsonOfO [("a", jsonOfO [("value", .str "1")])])])]) ∧
    applyFilters twoFilters ["all", "none"] nestedTokenTree
      = some (jsonOfO [("g", Json.obj .nil)]) := by
  decide

/-- Claim C7: validate(null) does not return a diagnostics object: after
validateStructure has already recorded the "Tokens must be an object"
error, validateRequiredCategories dereferences tokens["colors"] on the
null input and throws a TypeError, so the validator raises for a
data-quality issue instead of reporting it. -/
theorem C7_validate_null_throws :
    validate defaultVConfig Json.null
      = Except.error "TypeError: Cannot read properties of null" := by
  rfl

/-- Helper for claim C1: on the two-token reference cycle, every
recursion budget is exhausted by resolveTokenValue, for both entry
points. -/
theorem rtv_cycle_exhausts : ∀ n,
    resolveTokenValue n (.str "\x7ba\x7d") cycleTree = none ∧
    resolveTokenValue n (.str "\x7bb\x7d") cycleTree = none := by
  intro n
  induction n using Nat.strong_induction_on with
  | _ n ih =>
    match n with
    | 0 => exact ⟨rfl, rfl⟩
    | 1 => exact ⟨rfl, rfl⟩
    | m + 2 =>
      obtain ⟨ha, hb⟩ := ih m (by omega)
      constructor
      · show (match (resolveTokenValue m (.str "\x7bb\x7d") cycleTree).map some with
              | none => none
              | some none => some (Json.str "\x7ba\x7d")
              | some (some r) => some r) = none
        rw [hb]
        rfl
      · show (match (resolveTokenValue m (.str "\x7ba\x7d") cycleTree).map some with
              | none => none
              | some none => some (Json.str "\x7bb\x7d")
              | some (some r) => some r) = none
        rw [ha]
        rfl

/-- Claim C1: on the cyclic tree a = (b), b = (a), whole-tree resolution
does NOT terminate within any bounded recursion depth: for every budget,
resolveAllTokenReferences runs out, because resolveTokenValue and
resolveTokenReference recurse into each other forever.  The code has no
cycle guard, so the claimed bounded-depth fail-closed behavior does not
hold. -/
theorem C1_cycle_resolution_unbounded :
    ∀ fuel, resolveAllTokenReferences fuel cycleTree = none := by
  intro fuel
  have hb := (rtv_cycle_exhausts fuel).2
  simp only [cycleTree, jsonOfO, jO] at hb
  simp [resolveAllTokenReferences, cycleTree, jsonOfO, jO, resolveObject,
    resolveObjectO, hb, isStrB]

/-- A string is its own data list rebuilt. -/
theorem mk_data_eq (p : String) : String.mk p.data = p := rfl

/-- A braced string starts with the opening brace. -/
theorem strStarts_brace (p : String) : strStarts ("\x7b" ++ p ++ "\x7d") "\x7b" = true := by
  simp [strStarts, String.data_append, List.isPrefixOf]

/-- A braced string ends with the closing brace. -/
theorem strEnds_brace (p : String) : strEnds ("\x7b" ++ p ++ "\x7d") "\x7d" = true := by
  simp [strEnds, String.data_append, List.isPrefixOf]

/-- Slicing the braces off a braced string returns the inner path. -/
theorem sliceInner_brace (p : String) : sliceInner ("\x7b" ++ p ++ "\x7d") = p := by
  simp [sliceInner, String.data_append]

/-- Claim C3: resolving a whole-string reference whose dot-separated path
walk fails on the root tree is a soft failure: the original bracketed
string is returned unchanged at two budget steps (no recursion into other
references happens, so nothing can throw or diverge). -/
theorem C3_missing_reference_soft_fail (path : String) (root : Json) (fuel : Nat)
    (h : walkPath root (splitDot path) = none) :
    resolveTokenValue (fuel + 2) (.str ("\x7b" ++ path ++ "\x7d")) root
      = some (.str ("\x7b" ++ path ++ "\x7d")) := by
  have hr : resolveTokenReference (fuel + 1) path root = some none := by
    by_cases ht : truthy root
    · simp [resolveTokenReference, ht, h]
    · simp [resolveTokenReference, ht]
  simp [resolveTokenValue, strStarts_brace, strEnds_brace, sliceInner_brace, hr]

/-- Witness for claim C3 at the missing path of the specification
example. -/
theorem C3_missing_reference_soft_fail_witness :
    walkPath (jsonOfO [("a", .str "1")]) (splitDot "nonexistent.path") = none ∧
    resolveTokenValue 2 (.str ("\x7b" ++ "nonexistent.path" ++ "\x7d"))
      (jsonOfO [("a", .str "1")])
      = some (.str ("\x7b" ++ "nonexistent.path" ++ "\x7d")) :=
  ⟨by decide,
   C3_missing_reference_soft_fail "nonexistent.path" (jsonOfO [("a", .str "1")]) 0 (by decide)⟩

/-- Claim C5, amended: for a platform name outside the static map, the
empty transform list handed to applyTransforms selects the DEFAULT
transforms (color/hex, size/rem, name/kebab) rather than none, so the
call equals applyTransforms with the default list (and is not the
identity in general). -/
theorem C5_amended_unknown_platform_applies_defaults
    (env : String → Option JsTransform) (tokens : Json) (platform : String)
    (h : platform ∉ ["web", "ios", "android", "react", "flutter"]) :
    createPlatformTokens env tokens platform
      = applyTransforms env defaultTransformNames tokens := by
  simp only [List.mem_cons, not_or] at h
  obtain ⟨h1, h2, h3, h4, h5, -⟩ := h
  have hp : platformTransformNames platform = [] := by
    simp [platformTransformNames, h1, h2, h3, h4, h5]
  rw [createPlatformTokens, hp]
  rfl

/-- Witness for the amended claim C5 at the unknown platform "qt". -/
theorem C5_amended_witness :
    "qt" ∉ ["web", "ios", "android", "react", "flutter"] ∧
    createPlatformTokens builtinTransforms pxTree "qt"
      = applyTransforms builtinTransforms defaultTransformNames pxTree :=
  ⟨by decide,
   C5_amended_unknown_platform_applies_defaults builtinTransforms pxTree "qt" (by decide)⟩

/-- Claim C8, counterexample: whole-tree resolution is not idempotent.
On the acyclic aliasTree, the first pass resolves a.value to the object
b, which makes the previously failing reference a.value.x in c
resolvable, so a second pass changes the tree again. -/
theorem C8_resolution_not_idempotent :
    resolveAllTokenReferences 9 aliasTree = some aliasTreeOnce ∧
    resolveAllTokenReferences 9 aliasTreeOnce ≠ some aliasTreeOnce := by
  decide

/-- Helper for the amended claim C8: if every string leaf of a subtree
resolves to itself against the root, the resolveObject walk returns the
subtree unchanged. -/
theorem resolveObject_fixed (fuel : Nat) (t : Json) : ∀ j : Json,
    (∀ s ∈ allStringsJ j, resolveTokenValue fuel (.str s) t = some (.str s)) →
    resolveObject fuel t j = some j := by
  have H := @Json.rec
    (motive_1 := fun j =>
      (∀ s ∈ allStringsJ j, resolveTokenValue fuel (.str s) t = some (.str s)) →
      resolveObject fuel t j = some j)
    (motive_2 := fun l =>
      (∀ s ∈ allStringsL l, resolveTokenValue fuel (.str s) t = some (.str s)) →
      resolveObjectL fuel t l = some l)
    (motive_3 := fun o =>
      (∀ s ∈ allStringsO o, resolveTokenValue fuel (.str s) t = some (.str s)) →
      resolveObjectO fuel t o = some o)
  apply H
  · intro _
    rfl
  · intro b _
    rfl
  · intro q _
    rfl
  · intro s h
    exact h s (by simp [allStringsJ])
  · intro xs ih h
    have h2 := ih (by simpa [allStringsJ] using h)
    simp [resolveObject, h2]
  · intro es ih h
    have h2 := ih (by simpa [allStringsJ] using h)
    simp [resolveObject, h2]
  · intro _
    rfl
  · intro v rest ihv ihr h
    have hv := ihv (fun s hs => h s (by simp [allStringsL, hs]))
    have hr := ihr (fun s hs => h s (by simp [allStringsL, hs]))
    simp [resolveObjectL, hv, hr]
  · intro _
    rfl
  · intro k v rest ihv ihr h
    have hv : ∀ s ∈ allStringsJ v, resolveTokenValue fuel (.str s) t = some (.str s) :=
      fun s hs => h s (by simp [allStringsO, hs])
    have hr := ihr (fun s hs => h s (by simp [allStringsO, hs]))
    simp only [resolveObjectO]
    by_cases hc : (decide (k = "value") && isStrB v) = true
    · rw [if_pos hc]
      have hs : isStrB v = true := by
        cases hb : isStrB v
        · simp [hb] at hc
        · rfl
      cases v <;> simp [isStrB] at hs
      rw [hv _ (by simp [allStringsJ]), hr]
      rfl
    · rw [if_neg hc]
      rw [ihv hv, hr]
      rfl

/-- Claim C8, amended: resolution is the identity on a tree in which
every string leaf already resolves to itself (in particular on trees
whose bracketed references all fail to resolve); full idempotence fails
in general, as the counterexample shows, because a reference resolving to
an object can create newly resolvable paths. -/
theorem C8_amended_fully_resolved_fixed_point (fuel : Nat) (t : Json)
    (h : ∀ s ∈ allStringsJ t, resolveTokenValue fuel (.str s) t = some (.str s)) :
    resolveAllTokenReferences fuel t = some t :=
  resolveObject_fixed fuel t t h

/-- Witness for the amended claim C8 on a settled tree with one literal
token and one dead reference. -/
theorem C8_amended_fixed_point_witness :
    (∀ s ∈ allStringsJ settledTree,
      resolveTokenValue 5 (.str s) settledTree = some (.str s)) ∧
    resolveAllTokenReferences 5 settledTree = some settledTree :=
  ⟨by decide, C8_amended_fully_resolved_fixed_point 5 settledTree (by decide)⟩

/-- Claim C9: whenever transformTokens produces a model, that model
carries every one of the twelve fixed category keys (each extractor
always returns a value, default-filled when its category is absent), so
no top-level category lookup is ever undefined. -/
theorem C9_model_has_all_category_keys
    (tEnv : String → Option JsTransform) (fEnv : String → Option (JsToken → Bool))
    (cfgT cfgF : Option (List String)) (fuel : Nat) (now : String) (raw m : Json)
    (h : transformTokens tEnv fEnv cfgT cfgF fuel now raw = some m) :
    ∀ k ∈ categoryKeys, (getProp m k).isSome = true := by
  intro k hk
  unfold transformTokens at h
  obtain ⟨r0, h1, h⟩ := Option.bind_eq_some.mp h
  obtain ⟨p1, h2, h⟩ := Option.bind_eq_some.mp h
  obtain ⟨p2, h3, h⟩ := Option.bind_eq_some.mp h
  obtain ⟨c1, h4, h⟩ := Option.bind_eq_some.mp h
  obtain ⟨c2, h5, h⟩ := Option.bind_eq_some.mp h
  obtain ⟨c3, h6, h⟩ := Option.bind_eq_some.mp h
  obtain ⟨c4, h7, h⟩ := Option.bind_eq_some.mp h
  obtain ⟨c5, h8, h⟩ := Option.bind_eq_some.mp h
  obtain ⟨c6, h9, h⟩ := Option.bind_eq_some.mp h
  obtain ⟨c7, h10, h⟩ := Option.bind_eq_some.mp h
  obtain ⟨c8, h11, h⟩ := Option.bind_eq_some.mp h
  obtain ⟨c9, h12, h⟩ := Option.bind_eq_some.mp h
  obtain ⟨c10, h13, h⟩ := Option.bind_eq_some.mp h
  obtain ⟨c11, h14, h⟩ := Option.bind_eq_some.mp h
  obtain ⟨c12, h15, h⟩ := Option.bind_eq_some.mp h
  have hm : transformedModel c1 c2 c3 c4 c5 c6 c7 c8 c9 c10 c11 c12 now r0 p2 = m :=
    Option.some_inj.mp h
  subst hm
  fin_cases hk <;> simp [transformedModel, jsonOfO, jO, getProp, lookupO]

/-- Witness for claim C9 on the empty token object with no transforms or
filters configured. -/
theorem C9_model_keys_witness :
    ∃ m, transformTokens (fun _ => none) (fun _ => none) none none 1 "" (Json.obj .nil)
      = some m ∧ ∀ k ∈ categoryKeys, (getProp m k).isSome = true := by
  cases h : transformTokens (fun _ => none) (fun _ => none) none none 1 "" (Json.obj .nil) with
  | none => exact absurd h (by decide)
  | some m =>
      exact ⟨m, rfl,
        C9_model_has_all_category_keys (fun _ => none) (fun _ => none) none none 1 ""
          (Json.obj .nil) m h⟩

/-- Spreading a new value into a token node does not change the entries
with the value blanked. -/
theorem eraseValueO_spread (nv : Json) :
    ∀ es : JsonObj, eraseValueO (spreadSetValue.go es nv) = eraseValueO es
  | .nil => rfl
  | .cons k v rest => by
      by_cases hk : k = "value" <;>
        simp [spreadSetValue.go, eraseValueO, hk, eraseValueO_spread nv rest]

/-- Spreading a new value preserves which keys are present. -/
theorem lookupO_spread (nv : Json) (key : String) :
    ∀ es : JsonObj,
      (lookupO (spreadSetValue.go es nv) key).isSome = (lookupO es key).isSome
  | .nil => rfl
  | .cons k v rest => by
      by_cases hk : k = key <;>
        simp [spreadSetValue.go, lookupO, hk, lookupO_spread nv key rest]

/-- Arrays never carry an own value property. -/
theorem getProp_arr_value (xs : JsonList) : getProp (.arr xs) "value" = none := by
  simp [getProp, show canonIdx "value" = none from by decide]

/-- Erasing the token value commutes with the spread rebuild. -/
theorem eraseValueEntry_spread (v nv : Json) :
    eraseValueEntry (spreadSetValue v nv) = eraseValueEntry v := by
  cases v <;> simp [spreadSetValue, eraseValueEntry, eraseValueO_spread]

/-- The spread rebuild keeps a node a token node. -/
theorem isTokenNode_spread (v nv : Json) :
    isTokenNode (spreadSetValue v nv) = isTokenNode v := by
  cases v <;> simp [spreadSetValue, isTokenNode, truthy, typeofObject, getProp, lookupO_spread]

/-- Helper for claim C10: the transform walk never changes the shape of
the tree: after blanking token values, input and output coincide, and
token-ness and key presence are preserved at every level. -/
theorem transformsGo_strip (env : String → Option JsTransform) (ns : List String) :
    ∀ j : Json, ∀ path out, transformsGo env ns j path = some out →
      stripValues out = stripValues j ∧ isTokenNode out = isTokenNode j := by
  have H := @Json.rec
    (motive_1 := fun j => ∀ path out, transformsGo env ns j path = some out →
      stripValues out = stripValues j ∧ isTokenNode out = isTokenNode j)
    (motive_2 := fun xs => ∀ i path out, transformsGoL env ns xs i path = some out →
      stripValuesL out = stripValuesL xs)
    (motive_3 := fun es => ∀ path out, transformsGoO env ns es path = some out →
      stripValuesO out = stripValuesO es ∧
      ∀ key, (lookupO out key).isSome = (lookupO es key).isSome)
  apply H
  · intro path out h
    obtain rfl := Option.some_inj.mp h
    exact ⟨rfl, rfl⟩
  · intro b path out h
    obtain rfl := Option.some_inj.mp h
    exact ⟨rfl, rfl⟩
  · intro q path out h
    obtain rfl := Option.some_inj.mp h
    exact ⟨rfl, rfl⟩
  · intro s path out h
    obtain rfl := Option.some_inj.mp h
    exact ⟨rfl, rfl⟩
  · intro xs ih path out h
    obtain ⟨ys, hys, rfl⟩ := Option.map_eq_some'.mp h
    refine ⟨?_, ?_⟩
    · simp [stripValues, ih 0 path ys hys]
    · simp [isTokenNode, truthy, typeofObject, getProp_arr_value]
  · intro es ih path out h
    obtain ⟨es2, hes2, rfl⟩ := Option.map_eq_some'.mp h
    obtain ⟨hs, hl⟩ := ih path es2 hes2
    refine ⟨by simp [stripValues, hs], ?_⟩
    simp [isTokenNode, truthy, typeofObject, getProp, hl "value"]
  · intro i path out h
    obtain rfl := Option.some_inj.mp h
    rfl
  · intro v rest ihv ihr i path out h
    unfold transformsGoL at h
    obtain ⟨v2, hv2, h⟩ := Option.bind_eq_some.mp h
    obtain ⟨r2, hr2, h⟩ := Option.bind_eq_some.mp h
    obtain rfl := Option.some_inj.mp h
    have hrest := ihr (i + 1) path r2 hr2
    by_cases ht : isTokenNode v = true
    · rw [if_pos ht] at hv2
      obtain ⟨t, htk, hsp⟩ := Option.bind_eq_some.mp hv2
      obtain rfl := Option.some_inj.mp hsp
      simp [stripValuesL, isTokenNode_spread, eraseValueEntry_spread, ht, hrest]
    · rw [if_neg ht] at hv2
      obtain ⟨hstrip, htok⟩ := ihv (path ++ [toString i]) v2 hv2
      simp [stripValuesL, htok, ht, hstrip, hrest]
  · intro path out h
    obtain rfl := Option.some_inj.mp h
    exact ⟨rfl, fun key => rfl⟩
  · intro k v rest ihv ihr path out h
    unfold transformsGoO at h
    obtain ⟨v2, hv2, h⟩ := Option.bind_eq_some.mp h
    obtain ⟨r2, hr2, h⟩ := Option.bind_eq_some.mp h
    obtain rfl := Option.some_inj.mp h
    obtain ⟨hsr, hlr⟩ := ihr path r2 hr2
    have hkey : ∀ key, (lookupO (.cons k v2 r2) key).isSome
        = (lookupO (.cons k v rest) key).isSome := by
      intro key
      by_cases hk : k = key <;> simp [lookupO, hk, hlr key]
    by_cases ht : isTokenNode v = true
    · rw [if_pos ht] at hv2
      obtain ⟨t, htk, hsp⟩ := Option.bind_eq_some.mp hv2
      obtain rfl := Option.some_inj.mp hsp
      exact ⟨by simp [stripValuesO, isTokenNode_spread, eraseValueEntry_spread, ht, hsr], hkey⟩
    · rw [if_neg ht] at hv2
      obtain ⟨hstrip, htok⟩ := ihv (path ++ [k]) v2 hv2
      exact ⟨by simp [stripValuesO, htok, ht, hstrip, hsr], hkey⟩

/-- Claim C10: applyTransforms preserves the key structure of the tree
exactly; only the value entries of token leaves may change, and name
transforms never rename a key: input and output are equal after blanking
token values. -/
theorem C10_transforms_preserve_shape (env : String → Option JsTransform)
    (names : List String) (t out : Json)
    (h : applyTransforms env names t = some out) :
    stripValues out = stripValues t :=
  (transformsGo_strip env (if names.isEmpty then defaultTransformNames else names)
    t [] out h).1

/-- Witness for claim C10: the default transform chain on the px spacing
tree rewrites only the token value. -/
theorem C10_preserve_shape_witness :
    ∃ out, applyTransforms builtinTransforms [] pxTree = some out ∧
      stripValues out = stripValues pxTree := by
  cases h : applyTransforms builtinTransforms [] pxTree with
  | none => exact absurd h (by decide)
  | some out => exact ⟨out, rfl, C10_transforms_preserve_shape builtinTransforms [] pxTree out h⟩
